import Mathlib

/-
Verification development for the heap-file storage manager (heapfile.C).

The C++ source is shallowly embedded: each operation of the core becomes a
pure Lean function over explicit state.  Machine integers are modelled as
Int, with wrap-around made explicit where the source can overflow.  Calls
into the external collaborators (buffer pool, storage layer, page layout)
are modelled by oracle parameters carrying the status each call returns,
and by event lists recording the successful pin/unpin calls the operation
issues, so that the pin discipline can be stated and checked.
-/

namespace HeapStore

/-- Status codes of the system (error.h is not part of src; the constructor
set used by heapfile.C is reproduced, plus generic collaborator errors so
that oracles can range over arbitrary failures). -/
inductive Status where
  | OK
  | FILEEOF
  | FILEEXISTS
  | BADSCANPARM
  | INVALIDRECLEN
  | NOSPACE
  | NORECORDS
  | ENDOFPAGE
  | UNIXERR
  | BUFFEREXCEEDED
  | PAGENOTPINNED
  | BADPAGENO
deriving DecidableEq, Repr

/-- The three supported value kinds of a scan predicate. -/
inductive Datatype where
  | STRING
  | INTEGER
  | FLOAT
deriving DecidableEq, Repr

/-- The six comparison operators of a scan predicate. -/
inductive Operator where
  | LT
  | LTE
  | EQ
  | GTE
  | GT
  | NE
deriving DecidableEq, Repr

/-- Record identifier: a (page number, slot number) pair. -/
structure RID where
  pageNo : Int
  slotNo : Int
deriving DecidableEq, Repr

/-- The reserved sentinel RID meaning that there is no current record. -/
def NULLRID : RID := ⟨-1, -1⟩

/-- Modelled from the spec: the page size and the fixed per-page overhead
of the slotted page layout (page.h is not part of src).  The claims only
use the difference PAGESIZE - DPFIXED, never the concrete values. -/
def PAGESIZE : Int := 1024

/-- Modelled from the spec: fixed page overhead, see PAGESIZE. -/
def DPFIXED : Int := 20

/-- Modelled from the spec: width of a C int on the platform (sizeof(int)). -/
def sizeofInt : Int := 4

/-- Modelled from the spec: width of a C float on the platform (sizeof(float)). -/
def sizeofFloat : Int := 4

/-- An installed scan predicate: field offset, field length, value kind,
comparison operator, and the 32-bit integer that memcpy reconstructs from
the first length bytes of the filter literal (used by the INTEGER branch). -/
structure Pred where
  offset : Int
  length : Int
  type : Datatype
  op : Operator
  litInt : Int
deriving DecidableEq, Repr

/-- Value-level model of a record as the filter evaluator sees it: its
length, the 32-bit integer memcpy reconstructs from the 4 bytes at a given
offset, and the comparison signs the FLOAT and STRING branches produce
(kept abstract per record since no claim constrains float or string
arithmetic: fltDiffSign gives the sign of fattr - ffltr at an offset,
strDiffSign the sign of the bounded lexicographic comparison at an offset
with a given length bound). -/
structure RecordM where
  length : Int
  intAt : Int → Int
  fltDiffSign : Int → Int
  strDiffSign : Int → Int → Int

/-- Two-complement wrap of an integer into the 32-bit signed range, making
explicit the overflow of the C int subtraction iattr - ifltr. -/
def wrap32 (n : Int) : Int := (n + 2147483648) % 4294967296 - 2147483648

/-- HeapFileScan::matchRec (heapfile.C lines 453-505).  With no filter it
accepts every record; otherwise it rejects records too short to contain
the compared field, computes the typed difference, and applies the
operator to its sign.  The INTEGER branch subtracts the two reconstructed
ints in C int arithmetic (hence wrap32); the result is then stored in a C
float, which preserves the sign and zeroness of any 32-bit int, so the
operator switch is applied to the wrapped difference directly. -/
def matchRec (filter : Option Pred) (rec : RecordM) : Bool :=
  match filter with
  | none => true
  | some f =>
    if f.offset + f.length - 1 ≥ rec.length then false
    else
      let diff : Int :=
        match f.type with
        | Datatype.INTEGER => wrap32 (rec.intAt f.offset - f.litInt)
        | Datatype.FLOAT => rec.fltDiffSign f.offset
        | Datatype.STRING => rec.strDiffSign f.offset f.length
      match f.op with
      | Operator.LT => decide (diff < 0)
      | Operator.LTE => decide (diff ≤ 0)
      | Operator.EQ => decide (diff = 0)
      | Operator.GTE => decide (diff ≥ 0)
      | Operator.GT => decide (diff > 0)
      | Operator.NE => decide (diff ≠ 0)

/-- Modelled from the spec: the operator table of section 4.4, applied to
the sign of the exact (unwrapped) numeric difference.  This is the
spec-side comparison against which matchRec is checked. -/
def opSat (op : Operator) (diff : Int) : Bool :=
  match op with
  | Operator.LT => decide (diff < 0)
  | Operator.LTE => decide (diff ≤ 0)
  | Operator.EQ => decide (diff = 0)
  | Operator.GTE => decide (diff ≥ 0)
  | Operator.GT => decide (diff > 0)
  | Operator.NE => decide (diff ≠ 0)

/-- HeapFileScan::startScan (heapfile.C lines 243-270).  The filter
argument is an optional literal (None models a null filter pointer, Some
carries the reconstructed integer literal); the returned pair is the
status and the predicate state after the call, starting from the
predicate state given as first argument. -/
def startScan (installed : Option Pred) (offset_ length_ : Int)
    (type_ : Datatype) (filter_ : Option Int) (op_ : Operator) :
    Status × Option Pred :=
  match filter_ with
  | none => (Status.OK, none)
  | some lit =>
    if (offset_ < 0 ∨ length_ < 1)
        ∨ (type_ ≠ Datatype.STRING ∧ type_ ≠ Datatype.INTEGER ∧ type_ ≠ Datatype.FLOAT)
        ∨ ((type_ = Datatype.INTEGER ∧ length_ ≠ sizeofInt)
            ∨ (type_ = Datatype.FLOAT ∧ length_ ≠ sizeofFloat))
        ∨ (op_ ≠ Operator.LT ∧ op_ ≠ Operator.LTE ∧ op_ ≠ Operator.EQ
            ∧ op_ ≠ Operator.GTE ∧ op_ ≠ Operator.GT ∧ op_ ≠ Operator.NE)
    then (Status.BADSCANPARM, installed)
    else (Status.OK, some ⟨offset_, length_, type_, op_, lit⟩)

/-- The header and current-page bookkeeping state that
HeapFileScan::deleteRecord touches. -/
structure HandleSt where
  recCnt : Int
  hdrDirtyFlag : Bool
  curDirtyFlag : Bool
deriving DecidableEq, Repr

/-- HeapFileScan::deleteRecord (heapfile.C lines 431-443).  The page-layer
delete result of the cursor record is passed in as pageDelSt; the
function returns it verbatim after performing its bookkeeping. -/
def deleteRecord (pageDelSt : Status) (st : HandleSt) : Status × HandleSt :=
  (pageDelSt,
    { st with curDirtyFlag := true, recCnt := st.recCnt - 1, hdrDirtyFlag := true })

/-- Full scan state: cursor, pin flag for the current page, dirty flags and
the mark snapshot. -/
structure ScanStFull where
  curPageNo : Int
  curRec : RID
  curPinned : Bool
  curDirtyFlag : Bool
  markedPageNo : Int
  markedRec : RID
deriving DecidableEq, Repr

/-- HeapFileScan::markScan (heapfile.C lines 293-299). -/
def markScan (st : ScanStFull) : Status × ScanStFull :=
  (Status.OK, { st with markedPageNo := st.curPageNo, markedRec := st.curRec })

/-- Buffer-manager call record: a successful pin (allocPage or readPage) or
a successful unpin of the given page number. -/
inductive BufEvent where
  | pin (pageNo : Int)
  | unpin (pageNo : Int)
deriving DecidableEq, Repr

/-- HeapFileScan::resetScan (heapfile.C lines 301-321).  unpinSt and readSt
are the statuses the buffer manager returns for the unpin and read calls
on the page-switch path; the event list records the successful calls
issued. -/
def resetScan (unpinSt readSt : Status) (st : ScanStFull) :
    Status × ScanStFull × List BufEvent :=
  if st.markedPageNo ≠ st.curPageNo then
    if st.curPinned then
      if unpinSt ≠ Status.OK then (unpinSt, st, [])
      else
        let st1 := { st with curPageNo := st.markedPageNo, curRec := st.markedRec }
        if readSt ≠ Status.OK then
          (readSt, { st1 with curPinned := false }, [BufEvent.unpin st.curPageNo])
        else
          (Status.OK, { st1 with curPinned := true, curDirtyFlag := false },
            [BufEvent.unpin st.curPageNo, BufEvent.pin st.markedPageNo])
    else
      let st1 := { st with curPageNo := st.markedPageNo, curRec := st.markedRec }
      if readSt ≠ Status.OK then (readSt, { st1 with curPinned := false }, [])
      else (Status.OK, { st1 with curPinned := true, curDirtyFlag := false },
        [BufEvent.pin st.markedPageNo])
  else (Status.OK, { st with curRec := st.markedRec }, [])

/-- HeapFileScan::endScan (heapfile.C lines 273-286): unpin the current
page if pinned and clear the current-page state; the unpin status is
returned verbatim. -/
def endScan (unpinSt : Status) (st : ScanStFull) :
    Status × ScanStFull × List BufEvent :=
  if st.curPinned then
    (unpinSt,
      { st with curPinned := false, curPageNo := 0, curDirtyFlag := false },
      if unpinSt = Status.OK then [BufEvent.unpin st.curPageNo] else [])
  else (Status.OK, st, [])

/-- A data page as the scan sees it: its page number and the slot numbers
of its live records in the native slot order of the page layer.  A heap
file is a list of such pages in page-chain order (the forward link of each
page is the next list entry, and -1 for the last). -/
structure HPage where
  pageNo : Int
  recs : List Int
deriving DecidableEq, Repr

/-- Page layer firstRecord: the first live slot of the page, none meaning
the NORECORDS status. -/
def firstRecord (p : HPage) : Option Int := p.recs.head?

/-- Page layer nextRecord: the live slot following the given slot in slot
order, none meaning the ENDOFPAGE status. -/
def nextRecord (p : HPage) (slot : Int) : Option Int :=
  match p.recs.dropWhile (fun s => s != slot) with
  | _ :: rest => rest.head?
  | [] => none

/-- The scan cursor as scanNext reads and writes it: the current page
number and the current record RID. -/
structure ScanPos where
  curPageNo : Int
  curRec : RID
deriving DecidableEq, Repr

/-- A match oracle standing for getRecord followed by matchRec on the
record at (pageNo, slot); the unfiltered scan is the constant true. -/
abbrev Matcher := Int → Int → Bool

/-- The inner loop of scanNext (heapfile.C lines 387-408): starting from
candidate slot r on page p, visit slots in page order until one matches;
this is the first match in the slot suffix starting at r. -/
def scanInner (mtc : Matcher) (p : HPage) (r : Int) : Option Int :=
  (p.recs.dropWhile (fun s => s != r)).find? (fun s => mtc p.pageNo s)

/-- The outer loop of scanNext (heapfile.C lines 346-417) over the list of
pages still to be examined, the head being the page the loop reads next
(the empty list standing for the nextPageNo == -1 exit).  Returns the
status, the output RID on success, and the cursor after the call.
Branch by branch: a NULLRID cursor starts from the first record of the
page (NORECORDS advancing to the next page with the cursor untouched); a
non-NULLRID cursor continues from the record after it (ENDOFPAGE resetting
the cursor to NULLRID and advancing); a found candidate enters the inner
loop, which either returns a match or exhausts the page, resetting the
cursor to NULLRID before advancing. -/
def scanNextLoop (mtc : Matcher) : List HPage → ScanPos → Status × Option RID × ScanPos
  | [], st => (Status.FILEEOF, none, st)
  | p :: rest, st =>
    if st.curRec = NULLRID then
      match firstRecord p with
      | none => scanNextLoop mtc rest ⟨p.pageNo, st.curRec⟩
      | some r =>
        match scanInner mtc p r with
        | some s => (Status.OK, some ⟨p.pageNo, s⟩, ⟨p.pageNo, ⟨p.pageNo, s⟩⟩)
        | none => scanNextLoop mtc rest ⟨p.pageNo, NULLRID⟩
    else
      match nextRecord p st.curRec.slotNo with
      | some r =>
        match scanInner mtc p r with
        | some s => (Status.OK, some ⟨p.pageNo, s⟩, ⟨p.pageNo, ⟨p.pageNo, s⟩⟩)
        | none => scanNextLoop mtc rest ⟨p.pageNo, NULLRID⟩
      | none => scanNextLoop mtc rest ⟨p.pageNo, NULLRID⟩

/-- The pages of the chain from the page numbered pno onward; scanNext
initialises nextPageNo with curPageNo, so the scan re-reads the current
page first. -/
def pageSuffix (chain : List HPage) (pno : Int) : List HPage :=
  chain.dropWhile (fun p => p.pageNo != pno)

/-- HeapFileScan::scanNext (heapfile.C lines 336-420) on a file whose page
chain is the given list. -/
def scanNext (mtc : Matcher) (chain : List HPage) (st : ScanPos) :
    Status × Option RID × ScanPos :=
  scanNextLoop mtc (pageSuffix chain st.curPageNo) st

/-- The results of n successive scanNext calls. -/
def scanTrace (mtc : Matcher) (chain : List HPage) :
    Nat → ScanPos → List (Status × Option RID)
  | 0, _ => []
  | n + 1, st =>
    match scanNext mtc chain st with
    | (stat, r, st2) => (stat, r) :: scanTrace mtc chain n st2

/-- All live records of the file, in page-chain order and slot order. -/
def liveRIDs : List HPage → List RID
  | [] => []
  | p :: rest => p.recs.map (fun s => (⟨p.pageNo, s⟩ : RID)) ++ liveRIDs rest

/-- Wellformedness of a page chain: page numbers are distinct and never
the sentinel -1, and the live slots of each page are distinct. -/
def wfChain (chain : List HPage) : Prop :=
  (chain.map HPage.pageNo).Nodup
    ∧ (∀ p ∈ chain, p.pageNo ≠ -1)
    ∧ (∀ p ∈ chain, p.recs.Nodup)

/-- The unfiltered matcher: no predicate installed, every record matches. -/
def alwaysMatch : Matcher := fun _ _ => true

/-- A reachable cursor position of a scan over a chain, together with the
list of records the scan has yet to visit: the current page is a member
of the chain, and the cursor is either NULLRID (everything from the
current page on remains) or a live record of the current page (the later
records of that page and all records of later pages remain). -/
def GoodPos (chain : List HPage) (st : ScanPos) (rem : List RID) : Prop :=
  ∃ pre p rest, chain = pre ++ p :: rest ∧ st.curPageNo = p.pageNo
    ∧ ((st.curRec = NULLRID ∧ rem = liveRIDs (p :: rest))
        ∨ (∃ l1 s l2, p.recs = l1 ++ s :: l2 ∧ st.curRec = (⟨p.pageNo, s⟩ : RID)
            ∧ rem = l2.map (fun t => (⟨p.pageNo, t⟩ : RID)) ++ liveRIDs rest))

/-- HeapFileScan::getRecord (heapfile.C lines 425-428): it dereferences
curPage with no null check, so the embedding is undefined (none) whenever
no page is pinned; when a page is pinned it delegates to the page layer
fetch of the cursor record, modelled by the pageGet argument. -/
def scanGetRecord (st : ScanStFull) (pageGet : RID → Status × RecordM) :
    Option (Status × RecordM) :=
  if st.curPinned then some (pageGet st.curRec) else none

/-- The value of the C expression (unsigned int) rec.length: a negative
int length is converted to a huge unsigned value. -/
def recLenAsUnsigned (recLen : Int) : Int :=
  if recLen < 0 then recLen + 4294967296 else recLen

/-- Modelled from the spec: the page-layer contract (section 4.5) that a
freshly initialized empty page accepts any record whose length passed the
step-1 size check (Page::insertRecord is not part of src). -/
def freshPageInsert (recLen : Int) : Status :=
  if recLenAsUnsigned recLen > PAGESIZE - DPFIXED then Status.NOSPACE else Status.OK

/-- Which page the retry loop of insertRecord is currently attempting:
the page that was current on entry, or a freshly allocated one. -/
inductive PK where
  | initial
  | fresh
deriving DecidableEq, Repr

/-- The state of an insert scan handle that insertRecord reads or writes:
whether a data page is pinned, its number, and the header fields. -/
structure InsSt where
  curPage : Bool
  curPageNo : Int
  lastPageNo : Int
  recCnt : Int
  hdrDirtyFlag : Bool
  curDirtyFlag : Bool
deriving DecidableEq, Repr

/-- Result of an insertRecord call: the returned status, the handle state
after the call, the number of successful page allocations performed, and
the successful buffer-manager calls issued (allocPage and readPage count
as pins). -/
structure InsResult where
  status : Status
  st : InsSt
  allocs : Nat
  evs : List BufEvent
deriving DecidableEq, Repr

/-- Oracle for the collaborator calls insertRecord makes: the status of
the readPage of the last page (when no page is pinned on entry), the
page-layer insert status on the initial current page, the allocPage and
unPinPage statuses, and the page number allocPage hands out. -/
structure InsOracle where
  readLastSt : Status
  curInsertSt : Status
  allocSt : Status
  unpinSt : Status
  newPno : Int
deriving DecidableEq, Repr

/-- The page-layer insert result for the page the loop is attempting on:
the oracle decides for the page that was current on entry; a freshly
allocated page obeys the fresh-page contract. -/
def pageInsert (o : InsOracle) (recLen : Int) : PK → Status
  | PK.initial => o.curInsertSt
  | PK.fresh => freshPageInsert recLen

/-- The success bookkeeping of insertRecord (heapfile.C lines 571-583):
mark the current page dirty, bump the record count, mark the header
dirty. -/
def insertDone (st : InsSt) : InsSt :=
  { st with curDirtyFlag := true, recCnt := st.recCnt + 1, hdrDirtyFlag := true }

/-- The retry loop of insertRecord (heapfile.C lines 566-613), with fuel
making the unbounded while loop a total function (none = still looping
which never happens with enough fuel once the size check passed).  On
NOSPACE it allocates a page (pin), links it, unpins the previous current
page, updates the header last page, makes the new page current, and
retries on the fresh page; any other failure propagates immediately. -/
def insertLoop (o : InsOracle) (recLen : Int) : PK → InsSt → Nat → Option InsResult
  | _, _, 0 => none
  | k, st, fuel + 1 =>
    match pageInsert o recLen k with
    | Status.OK => some ⟨Status.OK, insertDone st, 0, []⟩
    | Status.NOSPACE =>
      if o.allocSt ≠ Status.OK then some ⟨o.allocSt, st, 0, []⟩
      else if o.unpinSt ≠ Status.OK then
        some ⟨o.unpinSt, st, 1, [BufEvent.pin o.newPno]⟩
      else
        let st2 := { st with lastPageNo := o.newPno, hdrDirtyFlag := true,
                             curPage := true, curPageNo := o.newPno, curDirtyFlag := true }
        match insertLoop o recLen PK.fresh st2 fuel with
        | none => none
        | some r =>
          some ⟨r.status, r.st, r.allocs + 1,
            BufEvent.pin o.newPno :: BufEvent.unpin st.curPageNo :: r.evs⟩
    | e => some ⟨e, st, 0, []⟩

/-- InsertFileScan::insertRecord (heapfile.C lines 536-613): the size
check on the cast-to-unsigned length happens before any collaborator
call; then, if no page is pinned, the last page of the header is read in
(skipped when the header says -1, in which case the loop dereferences a
null page pointer: undefined, modelled by none); then the retry loop
runs. -/
def insertRecordM (o : InsOracle) (recLen : Int) (st : InsSt) (fuel : Nat) :
    Option InsResult :=
  if recLenAsUnsigned recLen > PAGESIZE - DPFIXED then
    some ⟨Status.INVALIDRECLEN, st, 0, []⟩
  else if st.curPage = false then
    if st.lastPageNo ≠ -1 then
      if o.readLastSt ≠ Status.OK then some ⟨o.readLastSt, st, 0, []⟩
      else
        match insertLoop o recLen PK.initial
            { st with curPage := true, curPageNo := st.lastPageNo,
                      curDirtyFlag := false } fuel with
        | none => none
        | some r => some { r with evs := BufEvent.pin st.lastPageNo :: r.evs }
    else none
  else insertLoop o recLen PK.initial st fuel

/-- The running pin count of the pages selected by classify: the count
before the first event followed by the count after each event. -/
def countsFrom (classify : Int → Bool) (c : Int) : List BufEvent → List Int
  | [] => [c]
  | BufEvent.pin p :: es => c :: countsFrom classify (if classify p then c + 1 else c) es
  | BufEvent.unpin p :: es => c :: countsFrom classify (if classify p then c - 1 else c) es

/-- Net pin balance of the pages selected by classify over an event list. -/
def pinBalance (classify : Int → Bool) : List BufEvent → Int
  | [] => 0
  | BufEvent.pin p :: es => (if classify p then 1 else 0) + pinBalance classify es
  | BufEvent.unpin p :: es => (if classify p then (-1) else 0) + pinBalance classify es

/-- The page number the first allocPage of createHeapFile hands out (the
header page) in the embedding. -/
def hdrPageNo : Int := 1

/-- The page number the second allocPage of createHeapFile hands out (the
first data page) in the embedding. -/
def dataPageNo : Int := 2

/-- Oracle for the collaborator calls createHeapFile makes, in call
order: whether the initial openFile finds an existing file, then the
statuses of createFile, the second openFile, the two allocPage calls, the
two unPinPage calls and closeFile. -/
structure CHFOracle where
  fileExists : Bool
  createSt : Status
  open2St : Status
  alloc1St : Status
  alloc2St : Status
  unpin1St : Status
  unpin2St : Status
  closeSt : Status
deriving DecidableEq, Repr

/-- createHeapFile (heapfile.C lines 23-76): each failing collaborator
call returns its status immediately; the event list records the
successful pins (allocPage) and unpins actually issued up to the exit
point. -/
def createHeapFile (o : CHFOracle) : Status × List BufEvent :=
  if o.fileExists then (Status.FILEEXISTS, [])
  else if o.createSt ≠ Status.OK then (o.createSt, [])
  else if o.open2St ≠ Status.OK then (o.open2St, [])
  else if o.alloc1St ≠ Status.OK then (o.alloc1St, [])
  else if o.alloc2St ≠ Status.OK then (o.alloc2St, [BufEvent.pin hdrPageNo])
  else if o.unpin1St ≠ Status.OK then
    (o.unpin1St, [BufEvent.pin hdrPageNo, BufEvent.pin dataPageNo])
  else if o.unpin2St ≠ Status.OK then
    (o.unpin2St, [BufEvent.pin hdrPageNo, BufEvent.pin dataPageNo, BufEvent.unpin hdrPageNo])
  else if o.closeSt ≠ Status.OK then
    (o.closeSt, [BufEvent.pin hdrPageNo, BufEvent.pin dataPageNo,
      BufEvent.unpin hdrPageNo, BufEvent.unpin dataPageNo])
  else (Status.OK, [BufEvent.pin hdrPageNo, BufEvent.pin dataPageNo,
    BufEvent.unpin hdrPageNo, BufEvent.unpin dataPageNo])

/-- Oracle for the collaborator calls the HeapFile constructor makes, in
call order: openFile, getFirstPage, the readPage of the header page and
the readPage of the first data page. -/
structure HFOracle where
  openSt : Status
  getFirstSt : Status
  readHdrSt : Status
  readDataSt : Status
deriving DecidableEq, Repr

/-- The HeapFile constructor (heapfile.C lines 99-143): open the file,
look up the header page number, pin the header page, pin the first data
page recorded in the header.  Each failing call returns its status
immediately; the event list records the successful pins (readPage calls)
issued up to the exit point.  On success the handle retains both pins
(the header and its one current data page). -/
def openHeapFile (o : HFOracle) (hdrPno firstPno : Int) : Status × List BufEvent :=
  if o.openSt ≠ Status.OK then (o.openSt, [])
  else if o.getFirstSt ≠ Status.OK then (o.getFirstSt, [])
  else if o.readHdrSt ≠ Status.OK then (o.readHdrSt, [])
  else if o.readDataSt ≠ Status.OK then (o.readDataSt, [BufEvent.pin hdrPno])
  else (Status.OK, [BufEvent.pin hdrPno, BufEvent.pin firstPno])

/-- Oracle for the collaborator calls the HeapFile destructor makes: the
unPinPage of the current data page, the unPinPage of the header page, and
closeFile (which issues no pin event). -/
structure TDOracle where
  unpinDataSt : Status
  unpinHdrSt : Status
  closeSt : Status
deriving DecidableEq, Repr

/-- The HeapFile destructor (heapfile.C lines 152-179): unpin the current
data page if one is pinned, then unpin the header page, then close the
file.  Failures are logged but never abort the sequence, so the header
unpin is attempted even when the data-page unpin failed; the event list
records the successful unpins. -/
def closeHeapFile (o : TDOracle) (curPinned : Bool) (curPno hdrPno : Int) :
    List BufEvent :=
  (if curPinned then
    (if o.unpinDataSt = Status.OK then [BufEvent.unpin curPno] else [])
  else [])
    ++ (if o.unpinHdrSt = Status.OK then [BufEvent.unpin hdrPno] else [])

/-- The successful buffer-manager calls of the page-switch step of
scanNext (heapfile.C lines 352-360), iterated along the page suffix the
outer loop walks: unpin the current page if pinned, pin (read) the next
page, and continue unless the scan stops on that page.  The stop
predicate abstracts whether a matching record is found on the page, which
the pin pattern does not depend on; a failing unpin or read exits the
loop early, truncating this event list to a prefix. -/
def scanNextPinEvs (stop : HPage → Bool) : Bool → Int → List HPage → List BufEvent
  | _, _, [] => []
  | curPinned, curPno, p :: rest =>
    (if curPinned then [BufEvent.unpin curPno] else [])
      ++ BufEvent.pin p.pageNo
      :: (if stop p then [] else scanNextPinEvs stop true p.pageNo rest)

/-- The successful buffer-manager calls of HeapFile::getRecord
(heapfile.C lines 201-234): when the wanted page is not the pinned one,
unpin the current page if pinned and read the wanted page; otherwise no
call at all.  A failing unpin or read truncates this list to a prefix. -/
def getRecordPinEvs (curPinned : Bool) (curPno ridPno : Int) : List BufEvent :=
  if curPinned = false ∨ ridPno ≠ curPno then
    (if curPinned then [BufEvent.unpin curPno] else []) ++ [BufEvent.pin ridPno]
  else []

end HeapStore

namespace HeapStore

/-- C4: startScan with an absent filter succeeds unconditionally and
installs no predicate; with a present filter it returns BADSCANPARM
exactly when offset is negative, length is below one, the type is not one
of the three supported kinds, the type is numeric with a length differing
from its fixed width, or the operator is not one of the six comparisons;
and on that failure the installed predicate state is left unchanged. -/
theorem startScan_validation (installed : Option Pred) (offset_ length_ : Int)
    (type_ : Datatype) (op_ : Operator) (lit : Int) :
    startScan installed offset_ length_ type_ none op_ = (Status.OK, none)
    ∧ ((startScan installed offset_ length_ type_ (some lit) op_).1 = Status.BADSCANPARM
        ↔ ((offset_ < 0 ∨ length_ < 1)
            ∨ (type_ ≠ Datatype.STRING ∧ type_ ≠ Datatype.INTEGER ∧ type_ ≠ Datatype.FLOAT)
            ∨ ((type_ = Datatype.INTEGER ∧ length_ ≠ sizeofInt)
                ∨ (type_ = Datatype.FLOAT ∧ length_ ≠ sizeofFloat))
            ∨ (op_ ≠ Operator.LT ∧ op_ ≠ Operator.LTE ∧ op_ ≠ Operator.EQ
                ∧ op_ ≠ Operator.GTE ∧ op_ ≠ Operator.GT ∧ op_ ≠ Operator.NE)))
    ∧ ((startScan installed offset_ length_ type_ (some lit) op_).1 = Status.BADSCANPARM
        → (startScan installed offset_ length_ type_ (some lit) op_).2 = installed) := by
  refine ⟨rfl, ?_, ?_⟩
  · simp only [startScan]
    split
    · next h => exact iff_of_true rfl h
    · next h => exact iff_of_false (fun hc => Status.noConfusion hc) h
  · simp only [startScan]
    split
    · intro _; rfl
    · intro hc; exact Status.noConfusion hc

/-- Witness for startScan_validation at a concrete invalid call: a negative
offset with a present filter is rejected with BADSCANPARM. -/
theorem startScan_validation_witness :
    (startScan none (-1) 4 Datatype.INTEGER (some 7) Operator.EQ).1
      = Status.BADSCANPARM := by
  have h := startScan_validation none (-1) 4 Datatype.INTEGER Operator.EQ 7
  exact h.2.1.mpr (Or.inl (Or.inl (by decide)))

/-- C6: whenever offset + length - 1 exceeds the length of the record, the
filter evaluator returns false (a non-match, not an error): the record is
too short to contain the compared field.  The source in fact rejects
already at equality, which covers the strict case claimed. -/
theorem matchRec_short_record (f : Pred) (rec : RecordM)
    (h : f.offset + f.length - 1 > rec.length) :
    matchRec (some f) rec = false := by
  simp only [matchRec]
  split
  · rfl
  · next hn => exact absurd (le_of_lt h) hn

/-- Witness for matchRec_short_record: a field of 4 bytes at offset 2 does
not fit in a record of length 3. -/
theorem matchRec_short_record_witness :
    (2 : Int) + 4 - 1 > 3
    ∧ matchRec (some ⟨2, 4, Datatype.INTEGER, Operator.EQ, 0⟩)
        ⟨3, fun _ => 0, fun _ => 0, fun _ _ => 0⟩ = false :=
  ⟨by decide,
    matchRec_short_record ⟨2, 4, Datatype.INTEGER, Operator.EQ, 0⟩
      ⟨3, fun _ => 0, fun _ => 0, fun _ _ => 0⟩ (by decide)⟩

/-- Counterexample to C7 as stated: for the pair iattr = 2147483647,
ifltr = -1 (both representable in 32 bits) the numeric difference is
positive, so the claim requires the GT comparison to hold, but the C int
subtraction wraps to -2147483648 and the evaluator returns false. -/
theorem matchRec_integer_overflow_counterexample :
    (0 : Int) < 2147483647 - (-1)
    ∧ matchRec (some ⟨0, 4, Datatype.INTEGER, Operator.GT, -1⟩)
        ⟨4, fun _ => 2147483647, fun _ => 0, fun _ _ => 0⟩ = false := by
  constructor
  · decide
  · rfl

/-- wrap32 is the identity on the 32-bit signed range. -/
theorem wrap32_eq_of_range (d : Int) (hlo : -2147483648 ≤ d)
    (hhi : d < 2147483648) : wrap32 d = d := by
  unfold wrap32
  rw [Int.emod_eq_of_lt (by omega) (by omega)]
  omega

/-- C7 (amended): for a predicate of type integer whose field lies within
the record, and for every pair of field and literal values whose numeric
difference is itself representable in 32 bits (so that the C int
subtraction does not overflow), the evaluator agrees with the operator
applied to the sign of the exact numeric difference. -/
theorem matchRec_integer_correct (f : Pred) (rec : RecordM)
    (ht : f.type = Datatype.INTEGER)
    (hfit : ¬ f.offset + f.length - 1 ≥ rec.length)
    (hlo : -2147483648 ≤ rec.intAt f.offset - f.litInt)
    (hhi : rec.intAt f.offset - f.litInt < 2147483648) :
    matchRec (some f) rec = opSat f.op (rec.intAt f.offset - f.litInt) := by
  have hd := wrap32_eq_of_range _ hlo hhi
  simp only [matchRec]
  rw [if_neg hfit]
  simp only [ht, hd]
  cases f.op <;> rfl

/-- Witness for matchRec_integer_correct: field value 3 against literal 5
under LT, difference -2, evaluator returns true as the spec table does. -/
theorem matchRec_integer_correct_witness :
    matchRec (some ⟨0, 4, Datatype.INTEGER, Operator.LT, 5⟩)
        ⟨4, fun _ => 3, fun _ => 0, fun _ _ => 0⟩
      = opSat Operator.LT (3 - 5) :=
  matchRec_integer_correct ⟨0, 4, Datatype.INTEGER, Operator.LT, 5⟩
    ⟨4, fun _ => 3, fun _ => 0, fun _ _ => 0⟩ rfl (by decide) (by decide) (by decide)

/-- dropWhile with a key-mismatch test stops exactly at the first element
carrying the wanted key. -/
theorem dropWhile_key_first {α : Type} (key : α → Int) (v : Int) :
    ∀ (l1 : List α) (a : α) (l2 : List α), (∀ x ∈ l1, key x ≠ v) → key a = v →
      List.dropWhile (fun x => key x != v) (l1 ++ a :: l2) = a :: l2 := by
  intro l1
  induction l1 with
  | nil =>
    intro a l2 _ ha
    simp [List.dropWhile_cons, ha]
  | cons x xs ih =>
    intro a l2 h ha
    have hx : key x ≠ v := h x (by simp)
    simp only [List.cons_append, List.dropWhile_cons]
    rw [if_pos (by simp [hx])]
    exact ih a l2 (fun y hy => h y (by simp [hy])) ha

/-- Specialization of dropWhile_key_first to slot lists. -/
theorem dropWhile_slots (l1 : List Int) (s : Int) (l2 : List Int) (h : s ∉ l1) :
    List.dropWhile (fun x => x != s) (l1 ++ s :: l2) = s :: l2 :=
  dropWhile_key_first (fun x => x) s l1 s l2 (fun x hx heq => h (heq ▸ hx)) rfl

/-- Specialization of dropWhile_key_first to page chains. -/
theorem dropWhile_pages (l1 : List HPage) (p : HPage) (l2 : List HPage)
    (h : ∀ q ∈ l1, q.pageNo ≠ p.pageNo) :
    List.dropWhile (fun q => q.pageNo != p.pageNo) (l1 ++ p :: l2) = p :: l2 :=
  dropWhile_key_first HPage.pageNo p.pageNo l1 p l2 h rfl

/-- In a wellformed chain no page before a given page shares its number. -/
theorem wf_pre_disjoint (chain : List HPage) (pre : List HPage) (p : HPage)
    (rest : List HPage) (hw : wfChain chain) (hc : chain = pre ++ p :: rest) :
    ∀ q ∈ pre, q.pageNo ≠ p.pageNo := by
  obtain ⟨hnd, _, _⟩ := hw
  rw [hc, List.map_append, List.map_cons, List.nodup_append] at hnd
  intro q hq heq
  exact hnd.2.2 (List.mem_map_of_mem _ hq) (by rw [heq]; exact List.mem_cons_self _ _)

/-- The distinguished element of a nodup decomposition is not in the part
before it. -/
theorem nodup_middle_not_mem {l1 : List Int} {s : Int} {l2 : List Int}
    (h : (l1 ++ s :: l2).Nodup) : s ∉ l1 := by
  rw [List.nodup_append] at h
  exact fun hm => h.2.2 hm (List.mem_cons_self _ _)

/-- The element after the distinguished one in a nodup decomposition is in
neither the part before it nor equal to it. -/
theorem nodup_next_not_mem {l1 : List Int} {s r0 : Int} {l2 : List Int}
    (h : (l1 ++ s :: r0 :: l2).Nodup) : r0 ∉ l1 ++ [s] := by
  intro hm
  rw [List.nodup_append] at h
  rcases List.mem_append.mp hm with h1 | h1
  · exact h.2.2 h1 (by simp)
  · have hs : r0 = s := by simpa using h1
    have h3 := h.2.1
    rw [List.nodup_cons] at h3
    exact h3.1 (by rw [← hs]; exact List.mem_cons_self _ _)

/-- An RID on a real page is never the sentinel. -/
theorem rid_ne_nullrid (a b : Int) (ha : a ≠ -1) : (⟨a, b⟩ : RID) ≠ NULLRID :=
  fun h => ha (congrArg RID.pageNo h)

/-- On an unfiltered scan the inner loop accepts its first candidate. -/
theorem scanInner_always (p : HPage) (l1 : List Int) (r : Int) (l2 : List Int)
    (hrec : p.recs = l1 ++ r :: l2) (hnm : r ∉ l1) :
    scanInner alwaysMatch p r = some r := by
  unfold scanInner
  rw [hrec, dropWhile_slots l1 r l2 hnm]
  rfl

/-- The page layer nextRecord steps to the next element of the slot list. -/
theorem nextRecord_eq (p : HPage) (l1 : List Int) (s : Int) (l2 : List Int)
    (hrec : p.recs = l1 ++ s :: l2) (hnm : s ∉ l1) :
    nextRecord p s = l2.head? := by
  unfold nextRecord
  rw [hrec, dropWhile_slots l1 s l2 hnm]

/-- The outer loop of scanNext reports FILEEOF when no live record remains
on the pages still to be examined, starting with a NULLRID cursor. -/
theorem scanNextLoop_empty (pages : List HPage) :
    ∀ pn : Int, liveRIDs pages = [] →
      ∃ st2, scanNextLoop alwaysMatch pages ⟨pn, NULLRID⟩
        = (Status.FILEEOF, none, st2) := by
  induction pages with
  | nil =>
    intro pn _
    exact ⟨⟨pn, NULLRID⟩, rfl⟩
  | cons p rest ih =>
    intro pn h
    have hsplit : p.recs = [] ∧ liveRIDs rest = [] := by
      rw [liveRIDs] at h
      simpa using h
    obtain ⟨st2, hst⟩ := ih p.pageNo hsplit.2
    refine ⟨st2, ?_⟩
    simp only [scanNextLoop, if_pos rfl]
    rw [show firstRecord p = none from by simp [firstRecord, hsplit.1]]
    exact hst

/-- The outer loop of scanNext, started with a NULLRID cursor, returns the
first remaining live record, positioning the cursor on it; it also yields
the chain decomposition at the page carrying that record. -/
theorem scanNextLoop_first :
    ∀ (pages : List HPage) (r : RID) (rs : List RID) (pn : Int),
      liveRIDs pages = r :: rs →
      scanNextLoop alwaysMatch pages ⟨pn, NULLRID⟩ = (Status.OK, some r, ⟨r.pageNo, r⟩)
      ∧ ∃ (empties : List HPage) (q : HPage) (rest2 : List HPage) (tl : List Int),
          pages = empties ++ q :: rest2
          ∧ q.recs = r.slotNo :: tl
          ∧ r.pageNo = q.pageNo
          ∧ rs = tl.map (fun t => (⟨q.pageNo, t⟩ : RID)) ++ liveRIDs rest2 := by
  intro pages
  induction pages with
  | nil =>
    intro r rs pn h
    exact absurd h (by simp [liveRIDs])
  | cons p rest ih =>
    intro r rs pn h
    rcases hrec : p.recs with _ | ⟨s, tl⟩
    · have h2 : liveRIDs rest = r :: rs := by
        rw [liveRIDs, hrec] at h
        simpa using h
      obtain ⟨hrun, empties, q, rest2, tl, hdec, hq, hpn, hrs⟩ := ih r rs p.pageNo h2
      refine ⟨?_, p :: empties, q, rest2, tl, by rw [hdec]; rfl, hq, hpn, hrs⟩
      simp only [scanNextLoop, if_pos rfl]
      rw [show firstRecord p = none from by simp [firstRecord, hrec]]
      exact hrun
    · have hshape : r = (⟨p.pageNo, s⟩ : RID)
          ∧ rs = tl.map (fun t => (⟨p.pageNo, t⟩ : RID)) ++ liveRIDs rest := by
        rw [liveRIDs, hrec] at h
        simp only [List.map_cons, List.cons_append, List.cons.injEq] at h
        exact ⟨h.1.symm, h.2.symm⟩
      obtain ⟨hr1, hr2⟩ := hshape
      refine ⟨?_, [], p, rest, tl, rfl, by rw [hr1]; exact hrec, by rw [hr1], hr2⟩
      simp only [scanNextLoop, if_pos rfl]
      rw [show firstRecord p = some s from by simp [firstRecord, hrec]]
      simp only [scanInner_always p [] s tl (by rw [hrec]; rfl) (by simp)]
      subst hr1
      rfl

/-- One scanNext call from any reachable position of an unfiltered scan
over a wellformed chain: if no record remains it reports FILEEOF, and
otherwise it returns exactly the first remaining record, repositioning
the cursor on it (a reachable position again, with the tail remaining). -/
theorem scanNext_step (chain : List HPage) (st : ScanPos) (rem : List RID)
    (hw : wfChain chain) (hg : GoodPos chain st rem) :
    (rem = [] → ∃ st2, scanNext alwaysMatch chain st = (Status.FILEEOF, none, st2))
    ∧ (∀ r rs, rem = r :: rs →
        scanNext alwaysMatch chain st = (Status.OK, some r, ⟨r.pageNo, r⟩)
        ∧ GoodPos chain ⟨r.pageNo, r⟩ rs) := by
  obtain ⟨pre, p, rest, hc, hpn, hcase⟩ := hg
  have hps : pageSuffix chain st.curPageNo = p :: rest := by
    unfold pageSuffix
    rw [hpn, hc]
    exact dropWhile_pages pre p rest (wf_pre_disjoint chain pre p rest hw hc)
  have hsn : scanNext alwaysMatch chain st
      = scanNextLoop alwaysMatch (p :: rest) st := by
    unfold scanNext
    rw [hps]
  rcases hcase with ⟨hnull, hrem⟩ | ⟨l1, s, l2, hrec, hcur, hrem⟩
  · have hst : st = ⟨p.pageNo, NULLRID⟩ := by
      obtain ⟨a, b⟩ := st
      simp only [ScanPos.mk.injEq]
      exact ⟨hpn, hnull⟩
    constructor
    · intro hnil
      obtain ⟨st2, h2⟩ :=
        scanNextLoop_empty (p :: rest) p.pageNo (by rw [← hrem]; exact hnil)
      exact ⟨st2, by rw [hsn, hst]; exact h2⟩
    · intro r rs hcons
      obtain ⟨hrun, empties, q, rest2, tl, hdec, hq, hqpn, hrs⟩ :=
        scanNextLoop_first (p :: rest) r rs p.pageNo (by rw [← hrem]; exact hcons)
      refine ⟨by rw [hsn, hst]; exact hrun,
        pre ++ empties, q, rest2, ?_, hqpn,
        Or.inr ⟨[], r.slotNo, tl, hq, ?_, hrs⟩⟩
      · rw [hc, hdec, List.append_assoc]
      · obtain ⟨ra, rb⟩ := r
        have h3 : ra = q.pageNo := hqpn
        show (⟨ra, rb⟩ : RID) = ⟨q.pageNo, rb⟩
        rw [h3]
  · have hpmem : p ∈ chain := by
      rw [hc]
      simp
    have hpne : p.pageNo ≠ -1 := hw.2.1 p hpmem
    have hnd : p.recs.Nodup := hw.2.2 p hpmem
    have hsmem : s ∉ l1 := nodup_middle_not_mem (by rw [← hrec]; exact hnd)
    have hst : st = ⟨p.pageNo, ⟨p.pageNo, s⟩⟩ := by
      obtain ⟨a, b⟩ := st
      simp only [ScanPos.mk.injEq]
      exact ⟨hpn, hcur⟩
    have hunfold : scanNextLoop alwaysMatch (p :: rest) ⟨p.pageNo, ⟨p.pageNo, s⟩⟩
        = match nextRecord p s with
          | some r2 =>
            match scanInner alwaysMatch p r2 with
            | some s2 => (Status.OK, some ⟨p.pageNo, s2⟩, ⟨p.pageNo, ⟨p.pageNo, s2⟩⟩)
            | none => scanNextLoop alwaysMatch rest ⟨p.pageNo, NULLRID⟩
          | none => scanNextLoop alwaysMatch rest ⟨p.pageNo, NULLRID⟩ := by
      simp only [scanNextLoop]
      rw [if_neg (rid_ne_nullrid p.pageNo s hpne)]
    rcases l2 with _ | ⟨r0, l2t⟩
    · have hnr : nextRecord p s = none := by
        rw [nextRecord_eq p l1 s [] hrec hsmem]
        rfl
      have hspill : scanNext alwaysMatch chain st
          = scanNextLoop alwaysMatch rest ⟨p.pageNo, NULLRID⟩ := by
        rw [hsn, hst, hunfold, hnr]
      have hremr : rem = liveRIDs rest := by simpa using hrem
      constructor
      · intro hnil
        obtain ⟨st2, h2⟩ :=
          scanNextLoop_empty rest p.pageNo (by rw [← hremr]; exact hnil)
        exact ⟨st2, by rw [hspill]; exact h2⟩
      · intro r rs hcons
        obtain ⟨hrun, empties, q, rest2, tl, hdec, hq, hqpn, hrs⟩ :=
          scanNextLoop_first rest r rs p.pageNo (by rw [← hremr]; exact hcons)
        refine ⟨by rw [hspill]; exact hrun,
          pre ++ p :: empties, q, rest2, ?_, hqpn,
          Or.inr ⟨[], r.slotNo, tl, hq, ?_, hrs⟩⟩
        · rw [hc, hdec]
          simp [List.append_assoc]
        · obtain ⟨ra, rb⟩ := r
          have h3 : ra = q.pageNo := hqpn
          show (⟨ra, rb⟩ : RID) = ⟨q.pageNo, rb⟩
          rw [h3]
    · have hnr : nextRecord p s = some r0 := by
        rw [nextRecord_eq p l1 s (r0 :: l2t) hrec hsmem]
        rfl
      have hrecr : p.recs = (l1 ++ [s]) ++ r0 :: l2t := by
        rw [hrec]
        simp
      have hr0 : r0 ∉ l1 ++ [s] := nodup_next_not_mem (by rw [← hrec]; exact hnd)
      have hrun : scanNext alwaysMatch chain st
          = (Status.OK, some ⟨p.pageNo, r0⟩, ⟨p.pageNo, ⟨p.pageNo, r0⟩⟩) := by
        rw [hsn, hst, hunfold, hnr]
        simp only [scanInner_always p (l1 ++ [s]) r0 l2t hrecr hr0]
      constructor
      · intro hnil
        rw [hnil] at hrem
        simp at hrem
      · intro r rs hcons
        rw [hcons] at hrem
        simp only [List.map_cons, List.cons_append, List.cons.injEq] at hrem
        obtain ⟨h4r, h4rs⟩ := hrem
        subst h4r
        exact ⟨hrun, pre, p, rest, hc, rfl,
          Or.inr ⟨l1 ++ [s], r0, l2t, hrecr, rfl, h4rs⟩⟩

/-- The full unfiltered scan trace from any reachable position: the
remaining records, each reported once with OK in order, then FILEEOF. -/
theorem scanTrace_spec (chain : List HPage) (hw : wfChain chain) :
    ∀ (rem : List RID) (st : ScanPos), GoodPos chain st rem →
      scanTrace alwaysMatch chain (rem.length + 1) st
        = rem.map (fun r => (Status.OK, some r)) ++ [(Status.FILEEOF, none)] := by
  intro rem
  induction rem with
  | nil =>
    intro st hg
    obtain ⟨st2, hs⟩ := (scanNext_step chain st [] hw hg).1 rfl
    simp [scanTrace, hs]
  | cons r rs ih =>
    intro st hg
    obtain ⟨hrun, hg2⟩ := (scanNext_step chain st (r :: rs) hw hg).2 r rs rfl
    rw [scanTrace, hrun]
    simp only [List.length_cons, ih _ hg2]
    simp

/-- C1: an unfiltered scan started at the beginning of the file (cursor
NULLRID, current page the first page of the chain) visits, over M
successive scanNext calls, exactly the M live records of the file, each
exactly once, in increasing page-chain order and within a page in the
slot order of the page layer, and the next scanNext call after the M-th
record returns FILEEOF. -/
theorem scanNext_visits_all (chain : List HPage) (p0 : HPage) (rest : List HPage)
    (hw : wfChain chain) (hc : chain = p0 :: rest) :
    scanTrace alwaysMatch chain ((liveRIDs chain).length + 1) ⟨p0.pageNo, NULLRID⟩
      = (liveRIDs chain).map (fun r => (Status.OK, some r))
        ++ [(Status.FILEEOF, none)] := by
  apply scanTrace_spec chain hw
  exact ⟨[], p0, rest, hc, rfl, Or.inl ⟨rfl, by rw [hc]⟩⟩

/-- Witness for scanNext_visits_all on a three-page file with two records
on the first page, an empty middle page, and one record on the last. -/
theorem scanNext_visits_all_witness :
    scanTrace alwaysMatch [⟨2, [5, 7]⟩, ⟨4, []⟩, ⟨6, [1]⟩]
        ((liveRIDs [⟨2, [5, 7]⟩, ⟨4, []⟩, ⟨6, [1]⟩]).length + 1)
        ⟨(⟨2, [5, 7]⟩ : HPage).pageNo, NULLRID⟩
      = (liveRIDs [⟨2, [5, 7]⟩, ⟨4, []⟩, ⟨6, [1]⟩]).map
          (fun r => (Status.OK, some r))
        ++ [(Status.FILEEOF, none)] :=
  scanNext_visits_all [⟨2, [5, 7]⟩, ⟨4, []⟩, ⟨6, [1]⟩] ⟨2, [5, 7]⟩
    [⟨4, []⟩, ⟨6, [1]⟩] (by constructor <;> decide) rfl

/-- C5: a record whose length exceeds the maximum page payload is rejected
with INVALIDRECLEN before any collaborator call: the result carries no
pin or unpin event, no allocation, and the handle state, header fields
included, unchanged — for any fuel, since the check precedes the loop. -/
theorem insertRecord_oversized (o : InsOracle) (st : InsSt) (recLen : Int)
    (fuel : Nat) (h : PAGESIZE - DPFIXED < recLen) :
    insertRecordM o recLen st fuel = some ⟨Status.INVALIDRECLEN, st, 0, []⟩ := by
  have h0 : ¬ recLen < 0 := by
    simp only [PAGESIZE, DPFIXED] at h
    omega
  have hc : recLenAsUnsigned recLen > PAGESIZE - DPFIXED := by
    unfold recLenAsUnsigned
    rw [if_neg h0]
    exact h
  unfold insertRecordM
  rw [if_pos hc]

/-- Witness for insertRecord_oversized with a record of length 2000. -/
theorem insertRecord_oversized_witness :
    insertRecordM ⟨Status.OK, Status.OK, Status.OK, Status.OK, 9⟩ 2000
        ⟨true, 3, 3, 0, false, false⟩ 5
      = some ⟨Status.INVALIDRECLEN, ⟨true, 3, 3, 0, false, false⟩, 0, []⟩ :=
  insertRecord_oversized ⟨Status.OK, Status.OK, Status.OK, Status.OK, 9⟩
    ⟨true, 3, 3, 0, false, false⟩ 2000 5 (by decide)

/-- The retry on a freshly allocated page succeeds in one step whenever
the record passed the step-1 size check (the fresh page contract). -/
theorem insertLoop_fresh_ok (o : InsOracle) (recLen : Int) (st : InsSt) (fuel : Nat)
    (hfit : ¬ recLenAsUnsigned recLen > PAGESIZE - DPFIXED) :
    insertLoop o recLen PK.fresh st (fuel + 1)
      = some ⟨Status.OK, insertDone st, 0, []⟩ := by
  simp [insertLoop, pageInsert, freshPageInsert, hfit]

/-- Full characterization of the retry loop entered on the initial current
page with fuel at least two, for a record that passed the size check:
either the first attempt succeeds (no allocation), or NOSPACE triggers
exactly one allocation whose failure modes propagate, the retry on the
fresh page succeeding, or any other first-attempt failure propagates with
no allocation.  In particular the result is independent of the fuel. -/
theorem insertLoop_initial_char (o : InsOracle) (recLen : Int) (st : InsSt) (fuel : Nat)
    (hfit : ¬ recLenAsUnsigned recLen > PAGESIZE - DPFIXED) :
    insertLoop o recLen PK.initial st (fuel + 2) =
      match o.curInsertSt with
      | Status.OK => some ⟨Status.OK, insertDone st, 0, []⟩
      | Status.NOSPACE =>
        if o.allocSt ≠ Status.OK then some ⟨o.allocSt, st, 0, []⟩
        else if o.unpinSt ≠ Status.OK then
          some ⟨o.unpinSt, st, 1, [BufEvent.pin o.newPno]⟩
        else some ⟨Status.OK,
          insertDone { st with lastPageNo := o.newPno, hdrDirtyFlag := true,
                               curPage := true, curPageNo := o.newPno,
                               curDirtyFlag := true },
          1, [BufEvent.pin o.newPno, BufEvent.unpin st.curPageNo]⟩
      | e => some ⟨e, st, 0, []⟩ := by
  obtain ⟨rs, cs, as0, us, np⟩ := o
  cases cs <;> simp [insertLoop, pageInsert, freshPageInsert, hfit]

/-- C3: for a record that passed the step-1 size check, insertRecord
terminates with fuel two (the loop body runs at most twice), the result
does not change with more fuel, every terminating run performs at most
one page allocation, and a first-attempt failure other than NOSPACE
propagates immediately: the loop returns it with no allocation and the
state untouched. -/
theorem insertRecord_one_alloc (o : InsOracle) (st : InsSt) (recLen : Int)
    (hfit : ¬ recLenAsUnsigned recLen > PAGESIZE - DPFIXED)
    (hpage : st.curPage = true ∨ st.lastPageNo ≠ -1) :
    insertRecordM o recLen st 2 ≠ none
    ∧ (∀ extra : Nat, insertRecordM o recLen st (extra + 2) = insertRecordM o recLen st 2)
    ∧ (∀ r : InsResult, insertRecordM o recLen st 2 = some r → r.allocs ≤ 1)
    ∧ (o.curInsertSt ≠ Status.OK → o.curInsertSt ≠ Status.NOSPACE →
        ∀ (st1 : InsSt) (fuel : Nat),
          insertLoop o recLen PK.initial st1 (fuel + 1)
            = some ⟨o.curInsertSt, st1, 0, []⟩) := by
  have hne : ∀ (st1 : InsSt) (fuel : Nat),
      insertLoop o recLen PK.initial st1 (fuel + 2) ≠ none := by
    intro st1 fuel
    rw [insertLoop_initial_char o recLen st1 fuel hfit]
    cases o.curInsertSt <;> simp <;> split_ifs <;> simp
  have hkey : ∀ (st1 : InsSt) (fuel : Nat),
      insertLoop o recLen PK.initial st1 (fuel + 2)
        = insertLoop o recLen PK.initial st1 2 := by
    intro st1 fuel
    rw [insertLoop_initial_char o recLen st1 fuel hfit,
      show (2 : Nat) = 0 + 2 from rfl, insertLoop_initial_char o recLen st1 0 hfit]
  have hallocs : ∀ (st1 : InsSt) (fuel : Nat) (r : InsResult),
      insertLoop o recLen PK.initial st1 (fuel + 2) = some r → r.allocs ≤ 1 := by
    intro st1 fuel r h
    rw [insertLoop_initial_char o recLen st1 fuel hfit] at h
    revert h
    cases o.curInsertSt <;>
      first
      | (intro h
         injection h with h2
         rw [← h2])
      | (simp only []
         split_ifs <;> intro h <;> injection h with h2 <;> rw [← h2])
    all_goals simp
  have hprop : o.curInsertSt ≠ Status.OK → o.curInsertSt ≠ Status.NOSPACE →
      ∀ (st1 : InsSt) (fuel : Nat),
        insertLoop o recLen PK.initial st1 (fuel + 1)
          = some ⟨o.curInsertSt, st1, 0, []⟩ := by
    obtain ⟨rs, cs, as0, us, np⟩ := o
    intro h1 h2 st1 fuel
    cases cs <;>
      first
      | exact absurd rfl h1
      | exact absurd rfl h2
      | simp [insertLoop, pageInsert]
  by_cases hcp : st.curPage = true
  · have hred : ∀ fuel : Nat, insertRecordM o recLen st fuel
        = insertLoop o recLen PK.initial st fuel := by
      intro fuel
      unfold insertRecordM
      rw [if_neg hfit, if_neg (by rw [hcp]; exact fun h => Bool.noConfusion h)]
    refine ⟨?_, ?_, ?_, hprop⟩
    · rw [hred]
      exact hne st 0
    · intro extra
      rw [hred, hred]
      exact hkey st extra
    · intro r h
      rw [hred] at h
      exact hallocs st 0 r h
  · have hcpf : st.curPage = false := by
      cases h : st.curPage
      · rfl
      · exact absurd h hcp
    have hl : st.lastPageNo ≠ -1 := hpage.resolve_left hcp
    by_cases hrd : o.readLastSt = Status.OK
    · have hred : ∀ fuel : Nat, insertRecordM o recLen st fuel
          = match insertLoop o recLen PK.initial
              { st with curPage := true, curPageNo := st.lastPageNo,
                        curDirtyFlag := false } fuel with
            | none => none
            | some r => some { r with evs := BufEvent.pin st.lastPageNo :: r.evs } := by
        intro fuel
        unfold insertRecordM
        rw [if_neg hfit, if_pos (by rw [hcpf]), if_pos hl,
          if_neg (by rw [hrd]; exact fun h => h rfl)]
      refine ⟨?_, ?_, ?_, hprop⟩
      · rw [hred]
        rcases h2 : insertLoop o recLen PK.initial
            { st with curPage := true, curPageNo := st.lastPageNo,
                      curDirtyFlag := false } 2 with _ | r
        · exact absurd h2 (hne _ 0)
        · simp [h2]
      · intro extra
        rw [hred, hred, hkey _ extra]
      · intro r h
        rw [hred] at h
        revert h
        rcases h2 : insertLoop o recLen PK.initial
            { st with curPage := true, curPageNo := st.lastPageNo,
                      curDirtyFlag := false } 2 with _ | r0
        · intro h
          exact absurd h (by simp)
        · intro h
          injection h with h3
          rw [← h3]
          exact hallocs _ 0 r0 h2
    · have hred : ∀ fuel : Nat, insertRecordM o recLen st fuel
          = some ⟨o.readLastSt, st, 0, []⟩ := by
        intro fuel
        unfold insertRecordM
        rw [if_neg hfit, if_pos (by rw [hcpf]), if_pos hl, if_pos hrd]
      refine ⟨?_, ?_, ?_, hprop⟩
      · rw [hred]
        exact fun h => Option.noConfusion h
      · intro extra
        rw [hred, hred]
      · intro r h
        rw [hred] at h
        injection h with h2
        rw [← h2]
        simp

/-- Witness for insertRecord_one_alloc: a fitting record on a handle whose
current page reports NOSPACE, with the allocation succeeding. -/
theorem insertRecord_one_alloc_witness :
    insertRecordM ⟨Status.OK, Status.NOSPACE, Status.OK, Status.OK, 9⟩ 100
        ⟨true, 3, 3, 0, false, false⟩ 2 ≠ none :=
  (insertRecord_one_alloc ⟨Status.OK, Status.NOSPACE, Status.OK, Status.OK, 9⟩
    ⟨true, 3, 3, 0, false, false⟩ 100 (by decide) (Or.inl rfl)).1

/-- The page-switch loop of scanNext keeps the handle at no more than one
pinned data page at every instant, and ends with exactly one page pinned
(the retained current page) unless the suffix was empty. -/
theorem scanNextPinEvs_bounds (stop : HPage → Bool) :
    ∀ (pages : List HPage) (curPinned : Bool) (pno : Int),
      ((countsFrom (fun _ => true) (if curPinned then 1 else 0)
          (scanNextPinEvs stop curPinned pno pages)).all
        (fun c => decide (0 ≤ c ∧ c ≤ 1))) = true
      ∧ pinBalance (fun _ => true) (scanNextPinEvs stop curPinned pno pages)
          + (if curPinned then 1 else 0)
        = (if pages.isEmpty then (if curPinned then 1 else 0) else 1) := by
  intro pages
  induction pages with
  | nil =>
    intro curPinned pno
    cases curPinned <;> simp [scanNextPinEvs, countsFrom, pinBalance]
  | cons p rest ih =>
    intro curPinned pno
    have hb : pinBalance (fun _ => true) (scanNextPinEvs stop true p.pageNo rest) = 0 := by
      have h2 := (ih true p.pageNo).2
      rcases rest with _ | ⟨q, rest2⟩
      · simp [scanNextPinEvs, pinBalance]
      · simp at h2
        omega
    cases curPinned
    · cases hstop : stop p
      · refine ⟨?_, ?_⟩
        · have ha := (ih true p.pageNo).1
          simpa [scanNextPinEvs, countsFrom, hstop] using ha
        · simp [scanNextPinEvs, pinBalance, hstop, hb]
          try omega
      · refine ⟨?_, ?_⟩
        · simp [scanNextPinEvs, countsFrom, hstop]
        · simp [scanNextPinEvs, pinBalance, hstop]
          try omega
    · cases hstop : stop p
      · refine ⟨?_, ?_⟩
        · have ha := (ih true p.pageNo).1
          simpa [scanNextPinEvs, countsFrom, hstop] using ha
        · simp [scanNextPinEvs, pinBalance, hstop, hb]
          try omega
      · refine ⟨?_, ?_⟩
        · simp [scanNextPinEvs, countsFrom, hstop]
        · simp [scanNextPinEvs, pinBalance, hstop]
          try omega

/-- The page-switch step of getRecord keeps the handle at no more than one
pinned data page at every instant and ends with exactly the wanted page
pinned. -/
theorem getRecordPinEvs_bounds (curPinned : Bool) (curPno ridPno : Int) :
    ((countsFrom (fun _ => true) (if curPinned then 1 else 0)
        (getRecordPinEvs curPinned curPno ridPno)).all
      (fun c => decide (0 ≤ c ∧ c ≤ 1))) = true
    ∧ pinBalance (fun _ => true) (getRecordPinEvs curPinned curPno ridPno)
        + (if curPinned then 1 else 0) = 1 := by
  cases curPinned <;> by_cases h : ridPno = curPno <;>
    simp [getRecordPinEvs, countsFrom, pinBalance, h]

/-- The retry loop of insertRecord, entered with the current page pinned
and a record that passed the size check, keeps between one and two data
pages pinned at every instant and, on a successful return, has matched
every pin it took except the retained current page (net balance zero
relative to the one pin held on entry). -/
theorem insertLoop_pin_bounds (o : InsOracle) (recLen : Int)
    (hfit : ¬ recLenAsUnsigned recLen > PAGESIZE - DPFIXED) :
    ∀ (fuel : Nat) (k : PK) (st : InsSt) (r : InsResult),
      insertLoop o recLen k st fuel = some r →
      ((countsFrom (fun _ => true) 1 r.evs).all
          (fun c => decide (1 ≤ c ∧ c ≤ 2)) = true
        ∧ (r.status = Status.OK → pinBalance (fun _ => true) r.evs = 0)) := by
  intro fuel
  induction fuel with
  | zero =>
    intro k st r h
    exact absurd h (by simp [insertLoop])
  | succ n ih =>
    intro k st r h
    simp only [insertLoop] at h
    revert h
    cases hk : pageInsert o recLen k <;> intro h
    case OK =>
      injection h with h2
      rw [← h2]
      exact ⟨by simp [countsFrom], fun _ => by simp [pinBalance]⟩
    case NOSPACE =>
      revert h
      split_ifs with ha hu <;> intro h
      · injection h with h2
        rw [← h2]
        exact ⟨by simp [countsFrom], fun hok => absurd hok ha⟩
      · injection h with h2
        rw [← h2]
        exact ⟨by simp [countsFrom], fun hok => absurd hok hu⟩
      · revert h
        rcases n with _ | m
        · intro h
          exact absurd h (by simp [insertLoop])
        · rw [insertLoop_fresh_ok o recLen _ m hfit]
          intro h
          injection h with h3
          rw [← h3]
          refine ⟨by simp [countsFrom], fun _ => by simp [pinBalance]⟩
    all_goals
      injection h with h2
      rw [← h2]
      exact ⟨by simp [countsFrom], fun hok => by simp [pinBalance]⟩

/-- Relaxing the in-loop pin bound of the insert loop to the bound that
also covers the instant before the entry page was pinned. -/
theorem all_relax (l : List Int)
    (h : l.all (fun c => decide (1 ≤ c ∧ c ≤ 2)) = true) :
    l.all (fun c => decide (0 ≤ c ∧ c ≤ 2)) = true := by
  rw [List.all_eq_true] at h ⊢
  intro x hx
  have h2 := h x hx
  simp at h2 ⊢
  omega

set_option maxHeartbeats 1600000 in
/-- createHeapFile keeps at most the header page and one data page pinned
at every instant and, on a successful run, unpins everything it pinned;
its error exits may leave pins unmatched (see the C2 counterexample). -/
theorem createHeapFile_pin_bounds (o : CHFOracle) :
    ((countsFrom (fun p => decide (p ≠ hdrPageNo)) 0 (createHeapFile o).2).all
        (fun c => decide (0 ≤ c ∧ c ≤ 1)) = true)
    ∧ ((countsFrom (fun p => decide (p = hdrPageNo)) 0 (createHeapFile o).2).all
        (fun c => decide (0 ≤ c ∧ c ≤ 1)) = true)
    ∧ ((createHeapFile o).1 = Status.OK →
        pinBalance (fun _ => true) (createHeapFile o).2 = 0) := by
  have e0 : ∀ cl : Int → Bool,
      (countsFrom cl 0 ([] : List BufEvent)).all (fun c => decide (0 ≤ c ∧ c ≤ 1)) = true := by
    intro cl
    simp [countsFrom]
  have e1 : ∀ cl : Int → Bool,
      (countsFrom cl 0 [BufEvent.pin hdrPageNo]).all
        (fun c => decide (0 ≤ c ∧ c ≤ 1)) = true := by
    intro cl
    cases h : cl hdrPageNo <;> simp [countsFrom, h]
  have e2 : ∀ evs ∈ [[BufEvent.pin hdrPageNo, BufEvent.pin dataPageNo],
      [BufEvent.pin hdrPageNo, BufEvent.pin dataPageNo, BufEvent.unpin hdrPageNo],
      [BufEvent.pin hdrPageNo, BufEvent.pin dataPageNo, BufEvent.unpin hdrPageNo,
        BufEvent.unpin dataPageNo]],
      ((countsFrom (fun p => decide (p ≠ hdrPageNo)) 0 evs).all
          (fun c => decide (0 ≤ c ∧ c ≤ 1)) = true)
      ∧ ((countsFrom (fun p => decide (p = hdrPageNo)) 0 evs).all
          (fun c => decide (0 ≤ c ∧ c ≤ 1)) = true) := by decide
  refine ⟨?_, ?_, ?_⟩
  · unfold createHeapFile
    split_ifs
    · exact e0 _
    · exact e0 _
    · exact e0 _
    · exact e0 _
    · exact e1 _
    · exact (e2 _ (by simp)).1
    · exact (e2 _ (by simp)).1
    · exact (e2 _ (by simp)).1
    · exact (e2 _ (by simp)).1
  · unfold createHeapFile
    split_ifs
    · exact e0 _
    · exact e0 _
    · exact e0 _
    · exact e0 _
    · exact e1 _
    · exact (e2 _ (by simp)).2
    · exact (e2 _ (by simp)).2
    · exact (e2 _ (by simp)).2
    · exact (e2 _ (by simp)).2
  · unfold createHeapFile
    split_ifs with h1 h2 h3 h4 h5 h6 h7 h8 <;> intro h
    · exact h.elim
    · exact absurd h h2
    · exact absurd h h3
    · exact absurd h h4
    · exact absurd h h5
    · exact absurd h h6
    · exact absurd h h7
    · exact absurd h h8
    · decide

/-- insertRecord keeps at most two data pages pinned at every instant
(two only between allocating a new page and unpinning the old one) and on
success leaves exactly the retained current page pinned. -/
theorem insertRecordM_pin_bounds (o : InsOracle) (recLen : Int) (st : InsSt)
    (fuel : Nat) (r : InsResult) (h : insertRecordM o recLen st fuel = some r) :
    ((countsFrom (fun _ => true) (if st.curPage then 1 else 0) r.evs).all
        (fun c => decide (0 ≤ c ∧ c ≤ 2)) = true
      ∧ (r.status = Status.OK →
          pinBalance (fun _ => true) r.evs + (if st.curPage then 1 else 0) = 1)) := by
  unfold insertRecordM at h
  by_cases hsz : recLenAsUnsigned recLen > PAGESIZE - DPFIXED
  · rw [if_pos hsz] at h
    injection h with h2
    rw [← h2]
    cases hc : st.curPage <;>
      exact ⟨by simp [countsFrom], fun hok => Status.noConfusion hok⟩
  · rw [if_neg hsz] at h
    by_cases hcp : st.curPage = false
    · rw [if_pos hcp] at h
      by_cases hlp : st.lastPageNo ≠ -1
      · rw [if_pos hlp] at h
        by_cases hrd : o.readLastSt ≠ Status.OK
        · rw [if_pos hrd] at h
          injection h with h2
          rw [← h2, hcp]
          exact ⟨by simp [countsFrom], fun hok => absurd hok hrd⟩
        · rw [if_neg hrd] at h
          rcases h2 : insertLoop o recLen PK.initial
              { st with curPage := true, curPageNo := st.lastPageNo,
                        curDirtyFlag := false } fuel with _ | r2
          · rw [h2] at h
            exact absurd h (by simp)
          · rw [h2] at h
            injection h with h3
            rw [← h3, hcp]
            obtain ⟨hall, hbal⟩ :=
              insertLoop_pin_bounds o recLen hsz fuel PK.initial _ r2 h2
            constructor
            · have hr := all_relax _ hall
              rw [List.all_eq_true] at hr
              simp [countsFrom]
              intro x hx
              simpa using hr x hx
            · intro hok
              have hb0 : pinBalance (fun _ => true) r2.evs = 0 := hbal hok
              simp [pinBalance, hb0]
      · rw [if_neg hlp] at h
        exact absurd h (by simp)
    · rw [if_neg hcp] at h
      have hcpt : st.curPage = true := by
        cases hc : st.curPage
        · exact absurd hc hcp
        · rfl
      rw [hcpt]
      obtain ⟨hall, hbal⟩ := insertLoop_pin_bounds o recLen hsz fuel PK.initial st r h
      exact ⟨all_relax _ hall, fun hok => by rw [hbal hok]; simp⟩

/-- Handle open keeps at most the header page and one data page pinned at
every instant, and a successful open retains exactly those two pins (the
pins of the constructed handle, released at teardown). -/
theorem openHeapFile_pin_bounds (o : HFOracle) (hdrPno firstPno : Int)
    (hne : firstPno ≠ hdrPno) :
    ((countsFrom (fun p => decide (p = hdrPno)) 0 (openHeapFile o hdrPno firstPno).2).all
        (fun c => decide (0 ≤ c ∧ c ≤ 1)) = true)
    ∧ ((countsFrom (fun p => decide (p ≠ hdrPno)) 0 (openHeapFile o hdrPno firstPno).2).all
        (fun c => decide (0 ≤ c ∧ c ≤ 1)) = true)
    ∧ ((openHeapFile o hdrPno firstPno).1 = Status.OK →
        pinBalance (fun p => decide (p = hdrPno)) (openHeapFile o hdrPno firstPno).2 = 1
        ∧ pinBalance (fun p => decide (p ≠ hdrPno)) (openHeapFile o hdrPno firstPno).2 = 1) := by
  unfold openHeapFile
  split_ifs with h1 h2 h3 h4
  · exact ⟨by simp [countsFrom], by simp [countsFrom], fun h => absurd h h1⟩
  · exact ⟨by simp [countsFrom], by simp [countsFrom], fun h => absurd h h2⟩
  · exact ⟨by simp [countsFrom], by simp [countsFrom], fun h => absurd h h3⟩
  · exact ⟨by simp [countsFrom], by simp [countsFrom, hne], fun h => absurd h h4⟩
  · exact ⟨by simp [countsFrom, hne], by simp [countsFrom, hne],
      fun _ => ⟨by simp [pinBalance, hne], by simp [pinBalance, hne]⟩⟩

/-- Handle teardown only ever releases pins (counts stay within the pins
held on entry), attempts the header unpin even when the data-page unpin
failed — releasing the header whenever its own unpin succeeds — and
releases the data-page pin whenever that unpin succeeds. -/
theorem closeHeapFile_pin_bounds (o : TDOracle) (curPinned : Bool)
    (curPno hdrPno : Int) (hne : curPno ≠ hdrPno) :
    ((countsFrom (fun p => decide (p = hdrPno)) 1
        (closeHeapFile o curPinned curPno hdrPno)).all
        (fun c => decide (0 ≤ c ∧ c ≤ 1)) = true)
    ∧ ((countsFrom (fun p => decide (p ≠ hdrPno)) (if curPinned then 1 else 0)
        (closeHeapFile o curPinned curPno hdrPno)).all
        (fun c => decide (0 ≤ c ∧ c ≤ 1)) = true)
    ∧ (o.unpinHdrSt = Status.OK →
        BufEvent.unpin hdrPno ∈ closeHeapFile o curPinned curPno hdrPno
        ∧ pinBalance (fun p => decide (p = hdrPno))
            (closeHeapFile o curPinned curPno hdrPno) = -1)
    ∧ (o.unpinDataSt = Status.OK → curPinned = true →
        pinBalance (fun p => decide (p ≠ hdrPno))
          (closeHeapFile o curPinned curPno hdrPno) = -1) := by
  cases curPinned <;>
    by_cases hd : o.unpinDataSt = Status.OK <;>
    by_cases hh : o.unpinHdrSt = Status.OK <;>
    simp [closeHeapFile, countsFrom, pinBalance, hd, hh, hne]

/-- resetScan keeps at most one data page pinned at every instant and, on
every exit path, leaves outstanding exactly the retained current-page pin
of the state it returns. -/
theorem resetScan_pin_bounds (u r : Status) (st : ScanStFull) :
    ((countsFrom (fun _ => true) (if st.curPinned then 1 else 0)
        (resetScan u r st).2.2).all (fun c => decide (0 ≤ c ∧ c ≤ 1)) = true)
    ∧ pinBalance (fun _ => true) (resetScan u r st).2.2
        + (if st.curPinned then 1 else 0)
      = (if ((resetScan u r st).2.1).curPinned then 1 else 0) := by
  unfold resetScan
  by_cases hm : st.markedPageNo ≠ st.curPageNo <;>
    cases hcp : st.curPinned <;>
    by_cases hu : u ≠ Status.OK <;>
    by_cases hr : r ≠ Status.OK <;>
    simp [hm, hcp, hu, hr, countsFrom, pinBalance]

/-- endScan keeps at most one data page pinned at every instant and, when
it succeeds, leaves outstanding exactly the retained current-page pin of
the state it returns (none: the scan page has been released). -/
theorem endScan_pin_bounds (u : Status) (st : ScanStFull) :
    ((countsFrom (fun _ => true) (if st.curPinned then 1 else 0)
        (endScan u st).2.2).all (fun c => decide (0 ≤ c ∧ c ≤ 1)) = true)
    ∧ ((endScan u st).1 = Status.OK →
        pinBalance (fun _ => true) (endScan u st).2.2
          + (if st.curPinned then 1 else 0)
        = (if ((endScan u st).2.1).curPinned then 1 else 0)) := by
  unfold endScan
  cases hcp : st.curPinned <;> by_cases hu : u = Status.OK <;>
    simp [hcp, hu, countsFrom, pinBalance]

/-- Counterexample to C2 as stated.  First, createHeapFile does not match
every successful pin with an unpin on every error-return path: when the
allocation of the first data page fails, the call exits with the header
page still pinned (net pin balance one).  Second, insertRecord does not
keep at most one data page pinned at every instant: on the NOSPACE path
it pins the freshly allocated page before unpinning the previous current
page, so the running data-pin count reaches two. -/
theorem pin_discipline_counterexample :
    (createHeapFile ⟨false, Status.OK, Status.OK, Status.OK, Status.UNIXERR,
        Status.OK, Status.OK, Status.OK⟩)
      = (Status.UNIXERR, [BufEvent.pin hdrPageNo])
    ∧ pinBalance (fun _ => true)
        (createHeapFile ⟨false, Status.OK, Status.OK, Status.OK, Status.UNIXERR,
          Status.OK, Status.OK, Status.OK⟩).2 = 1
    ∧ insertRecordM ⟨Status.OK, Status.NOSPACE, Status.OK, Status.OK, 9⟩ 100
        ⟨true, 3, 3, 0, false, false⟩ 2
      = some ⟨Status.OK, ⟨true, 9, 9, 1, true, true⟩, 1,
          [BufEvent.pin 9, BufEvent.unpin 3]⟩
    ∧ ¬ ((countsFrom (fun _ => true) 1 [BufEvent.pin 9, BufEvent.unpin 3]).all
          (fun c => decide (c ≤ 1)) = true) := by
  refine ⟨rfl, by decide, rfl, by decide⟩

/-- C2 (amended): for every operation of the core — file creation, handle
open, handle and scan teardown, point lookup, scan step, reset, insert —
at most one data page plus the header page is pinned by a handle at any
instant, with the single exception of insertRecord, which transiently
pins two data pages between allocating a new page and unpinning the
previous one (never more).  Every successful pin is matched by exactly
one unpin on every successful completion, leaving outstanding exactly the
pins of the handle itself (the header plus at most one current page; for
createHeapFile nothing); teardown attempts all unpins even when an
earlier one failed, so the header pin is released whenever its own unpin
succeeds; on error-return paths (createHeapFile after a failed allocation
or unpin, insertRecord after a failed unpin, endScan after a failed
unpin) pins already taken may leak without a matching unpin.  Error
returns inside scanNext, getRecord and resetScan truncate the modelled
event lists to a prefix, and the running count bounds stated here hold
for every prefix by construction. -/
theorem pin_discipline_amended :
    (∀ o : CHFOracle,
        ((countsFrom (fun p => decide (p ≠ hdrPageNo)) 0 (createHeapFile o).2).all
            (fun c => decide (0 ≤ c ∧ c ≤ 1)) = true)
        ∧ ((countsFrom (fun p => decide (p = hdrPageNo)) 0 (createHeapFile o).2).all
            (fun c => decide (0 ≤ c ∧ c ≤ 1)) = true)
        ∧ ((createHeapFile o).1 = Status.OK →
            pinBalance (fun _ => true) (createHeapFile o).2 = 0))
    ∧ (∀ (stop : HPage → Bool) (pages : List HPage) (curPinned : Bool) (pno : Int),
        ((countsFrom (fun _ => true) (if curPinned then 1 else 0)
            (scanNextPinEvs stop curPinned pno pages)).all
          (fun c => decide (0 ≤ c ∧ c ≤ 1))) = true
        ∧ pinBalance (fun _ => true) (scanNextPinEvs stop curPinned pno pages)
            + (if curPinned then 1 else 0)
          = (if pages.isEmpty then (if curPinned then 1 else 0) else 1))
    ∧ (∀ (curPinned : Bool) (curPno ridPno : Int),
        ((countsFrom (fun _ => true) (if curPinned then 1 else 0)
            (getRecordPinEvs curPinned curPno ridPno)).all
          (fun c => decide (0 ≤ c ∧ c ≤ 1))) = true
        ∧ pinBalance (fun _ => true) (getRecordPinEvs curPinned curPno ridPno)
            + (if curPinned then 1 else 0) = 1)
    ∧ (∀ (o : InsOracle) (recLen : Int) (st : InsSt) (fuel : Nat) (r : InsResult),
        insertRecordM o recLen st fuel = some r →
        ((countsFrom (fun _ => true) (if st.curPage then 1 else 0) r.evs).all
            (fun c => decide (0 ≤ c ∧ c ≤ 2)) = true
          ∧ (r.status = Status.OK →
              pinBalance (fun _ => true) r.evs + (if st.curPage then 1 else 0) = 1)))
    ∧ (∀ (o : HFOracle) (hdrPno firstPno : Int), firstPno ≠ hdrPno →
        ((countsFrom (fun p => decide (p = hdrPno)) 0
            (openHeapFile o hdrPno firstPno).2).all
          (fun c => decide (0 ≤ c ∧ c ≤ 1)) = true)
        ∧ ((countsFrom (fun p => decide (p ≠ hdrPno)) 0
            (openHeapFile o hdrPno firstPno).2).all
          (fun c => decide (0 ≤ c ∧ c ≤ 1)) = true)
        ∧ ((openHeapFile o hdrPno firstPno).1 = Status.OK →
            pinBalance (fun p => decide (p = hdrPno))
              (openHeapFile o hdrPno firstPno).2 = 1
            ∧ pinBalance (fun p => decide (p ≠ hdrPno))
              (openHeapFile o hdrPno firstPno).2 = 1))
    ∧ (∀ (o : TDOracle) (curPinned : Bool) (curPno hdrPno : Int), curPno ≠ hdrPno →
        ((countsFrom (fun p => decide (p = hdrPno)) 1
            (closeHeapFile o curPinned curPno hdrPno)).all
          (fun c => decide (0 ≤ c ∧ c ≤ 1)) = true)
        ∧ ((countsFrom (fun p => decide (p ≠ hdrPno)) (if curPinned then 1 else 0)
            (closeHeapFile o curPinned curPno hdrPno)).all
          (fun c => decide (0 ≤ c ∧ c ≤ 1)) = true)
        ∧ (o.unpinHdrSt = Status.OK →
            BufEvent.unpin hdrPno ∈ closeHeapFile o curPinned curPno hdrPno
            ∧ pinBalance (fun p => decide (p = hdrPno))
                (closeHeapFile o curPinned curPno hdrPno) = -1)
        ∧ (o.unpinDataSt = Status.OK → curPinned = true →
            pinBalance (fun p => decide (p ≠ hdrPno))
              (closeHeapFile o curPinned curPno hdrPno) = -1))
    ∧ (∀ (u r : Status) (st : ScanStFull),
        ((countsFrom (fun _ => true) (if st.curPinned then 1 else 0)
            (resetScan u r st).2.2).all (fun c => decide (0 ≤ c ∧ c ≤ 1)) = true)
        ∧ pinBalance (fun _ => true) (resetScan u r st).2.2
            + (if st.curPinned then 1 else 0)
          = (if ((resetScan u r st).2.1).curPinned then 1 else 0))
    ∧ (∀ (u : Status) (st : ScanStFull),
        ((countsFrom (fun _ => true) (if st.curPinned then 1 else 0)
            (endScan u st).2.2).all (fun c => decide (0 ≤ c ∧ c ≤ 1)) = true)
        ∧ ((endScan u st).1 = Status.OK →
            pinBalance (fun _ => true) (endScan u st).2.2
              + (if st.curPinned then 1 else 0)
            = (if ((endScan u st).2.1).curPinned then 1 else 0))) := by
  refine ⟨?_, ?_, ?_, ?_, ?_, ?_, ?_, ?_⟩
  · exact fun o => createHeapFile_pin_bounds o
  · exact fun stop pages curPinned pno => scanNextPinEvs_bounds stop pages curPinned pno
  · exact fun curPinned curPno ridPno => getRecordPinEvs_bounds curPinned curPno ridPno
  · exact fun o recLen st fuel r h => insertRecordM_pin_bounds o recLen st fuel r h
  · exact fun o hdrPno firstPno hne => openHeapFile_pin_bounds o hdrPno firstPno hne
  · exact fun o curPinned curPno hdrPno hne =>
      closeHeapFile_pin_bounds o curPinned curPno hdrPno hne
  · exact fun u r st => resetScan_pin_bounds u r st
  · exact fun u st => endScan_pin_bounds u st

/-- Witness for pin_discipline_amended: the data-page pin bound of a fully
successful createHeapFile run. -/
theorem pin_discipline_amended_witness :
    ((countsFrom (fun p => decide (p ≠ hdrPageNo)) 0
        (createHeapFile ⟨false, Status.OK, Status.OK, Status.OK, Status.OK,
          Status.OK, Status.OK, Status.OK⟩).2).all
      (fun c => decide (0 ≤ c ∧ c ≤ 1))) = true :=
  (pin_discipline_amended.1 ⟨false, Status.OK, Status.OK, Status.OK, Status.OK,
    Status.OK, Status.OK, Status.OK⟩).1

/-- C8: markScan followed immediately by resetScan succeeds, performs no
buffer-manager call at all (the mark is on the current page, so no unpin
and no read happens), and restores exactly the cursor state, so the next
scanNext computes the same result, and leaves the same state, as it would
have without the mark/reset round trip. -/
theorem markScan_resetScan_id (st : ScanStFull) (unpinSt readSt : Status)
    (mtc : Matcher) (chain : List HPage) :
    (resetScan unpinSt readSt (markScan st).2).1 = Status.OK
    ∧ (resetScan unpinSt readSt (markScan st).2).2.2 = []
    ∧ ((resetScan unpinSt readSt (markScan st).2).2.1).curPageNo = st.curPageNo
    ∧ ((resetScan unpinSt readSt (markScan st).2).2.1).curRec = st.curRec
    ∧ ((resetScan unpinSt readSt (markScan st).2).2.1).curPinned = st.curPinned
    ∧ ((resetScan unpinSt readSt (markScan st).2).2.1).curDirtyFlag = st.curDirtyFlag
    ∧ scanNext mtc chain ⟨((resetScan unpinSt readSt (markScan st).2).2.1).curPageNo,
        ((resetScan unpinSt readSt (markScan st).2).2.1).curRec⟩
      = scanNext mtc chain ⟨st.curPageNo, st.curRec⟩ := by
  simp [markScan, resetScan]

/-- C9: deleteRecord decrements the header record count and sets both the
current-page and the header dirty flags unconditionally, and returns the
page-layer delete status verbatim: even when that status is an error the
bookkeeping has already happened, so deletion is not atomic on error. -/
theorem deleteRecord_not_atomic (pageDelSt : Status) (st : HandleSt) :
    (deleteRecord pageDelSt st).1 = pageDelSt
    ∧ (deleteRecord pageDelSt st).2.recCnt = st.recCnt - 1
    ∧ (deleteRecord pageDelSt st).2.curDirtyFlag = true
    ∧ (deleteRecord pageDelSt st).2.hdrDirtyFlag = true :=
  ⟨rfl, rfl, rfl, rfl⟩

/-- C10: the scan getRecord has the unstated precondition that a data page
is pinned: whenever no page is pinned its embedding is undefined (none)
rather than an error status, and endScan always leaves the scan in that
unpinned state, so getRecord after endScan is undefined behaviour. -/
theorem scanGetRecord_needs_pin (st st2 : ScanStFull) (unpinSt : Status)
    (pageGet : RID → Status × RecordM) (h : st.curPinned = false) :
    scanGetRecord st pageGet = none
    ∧ ((endScan unpinSt st2).2.1).curPinned = false
    ∧ scanGetRecord ((endScan unpinSt st2).2.1) pageGet = none := by
  have hend : ((endScan unpinSt st2).2.1).curPinned = false := by
    unfold endScan
    split <;> next hp => simp [hp]
  refine ⟨?_, hend, ?_⟩
  · unfold scanGetRecord
    rw [h]
    rfl
  · unfold scanGetRecord
    rw [hend]
    rfl

/-- Witness for scanGetRecord_needs_pin at a concrete unpinned state. -/
theorem scanGetRecord_needs_pin_witness :
    scanGetRecord ⟨0, NULLRID, false, false, 0, NULLRID⟩
        (fun _ => (Status.OK, ⟨0, fun _ => 0, fun _ => 0, fun _ _ => 0⟩)) = none
    ∧ ((endScan Status.OK ⟨3, NULLRID, true, false, 0, NULLRID⟩).2.1).curPinned = false
    ∧ scanGetRecord ((endScan Status.OK ⟨3, NULLRID, true, false, 0, NULLRID⟩).2.1)
        (fun _ => (Status.OK, ⟨0, fun _ => 0, fun _ => 0, fun _ _ => 0⟩)) = none :=
  scanGetRecord_needs_pin ⟨0, NULLRID, false, false, 0, NULLRID⟩
    ⟨3, NULLRID, true, false, 0, NULLRID⟩ Status.OK
    (fun _ => (Status.OK, ⟨0, fun _ => 0, fun _ => 0, fun _ _ => 0⟩)) rfl

end HeapStore
